import Mathlib

/-!
Shallow embedding of `src/lib/classes/tasks/TasksQueue.js` (the task
scheduler of the cognitum repository) together with the supporting task
model, and theorems settling the specification claims about it.

Times are modelled as `Int` (JavaScript millisecond timestamps); the
`id` field of a task is modelled by `JsId`, capturing JavaScript
truthiness of the values that can sit in that field.  Array elements of
`#tasksList` are modelled by `Entry`: `Entry.task t` is a `BaseTask`
instance, `Entry.junk` is any non-task element or the hole that
`delete this.#tasksList[i]` leaves behind (holes are skipped by
`forEach` and by the `instanceof BaseTask` checks, exactly as `junk` is
skipped below).
-/

namespace TasksQueue

/-- A JavaScript value sitting in a task's `id` field. -/
inductive JsId where
  | absent
  | null
  | num (n : Int)
  | str (s : String)
deriving DecidableEq

/-- JavaScript truthiness of an `id` value: `undefined`, `null`, `0`
and `""` are falsy, everything else here is truthy. -/
def JsId.truthy : JsId → Bool
  | .absent => false
  | .null => false
  | .num n => decide (n ≠ 0)
  | .str s => decide (s ≠ "")

/-- A `BaseTask` as the queue observes it: its due time `time`, its
`id`, and whether each lifecycle phase (`beforeRun`, `run`,
`afterRun`) completes without raising. -/
structure Task where
  time : Int
  id : JsId
  beforeRunOk : Bool
  runOk : Bool
  afterRunOk : Bool
deriving DecidableEq

/-- One element of the `#tasksList` array. -/
inductive Entry where
  | task (t : Task)
  | junk
deriving DecidableEq

/-- `instanceof BaseTask` as an `Option`-valued projection. -/
def Entry.task? : Entry → Option Task
  | .task t => some t
  | .junk => none

/-- `instanceof BaseTask` as a Boolean test. -/
def Entry.isTask : Entry → Bool
  | .task _ => true
  | .junk => false

/-- All three lifecycle phases of `t` complete without raising. -/
def phasesOk (t : Task) : Bool :=
  t.beforeRunOk && t.runOk && t.afterRunOk

/-- Every task element of the list has all three phases succeeding. -/
def entriesOk : List Entry → Bool
  | [] => true
  | Entry.junk :: rest => entriesOk rest
  | Entry.task t :: rest => phasesOk t && entriesOk rest

/-- Every task element of the list has a non-negative `time`. -/
def timesNonneg : List Entry → Bool
  | [] => true
  | Entry.junk :: rest => timesNonneg rest
  | Entry.task t :: rest => decide (0 ≤ t.time) && timesNonneg rest

/-- Every task element of the list has a negative `time`. -/
def timesNeg : List Entry → Bool
  | [] => true
  | Entry.junk :: rest => timesNeg rest
  | Entry.task t :: rest => decide (t.time < 0) && timesNeg rest

/-- The list holds at least one task element. -/
def hasTask (l : List Entry) : Bool := l.any Entry.isTask

/-- Result of the scan loop inside `#runTasks` (lines 93-107 of the
source): the array contents after the loop (due tasks replaced by the
holes `delete` leaves), the local `completedTasks` accumulator, the
tasks whose phases were invoked, and whether an exception escaped the
loop (the source has no `try`/`catch`, so the first failing phase
propagates and aborts the loop). -/
structure LoopResult where
  entries : List Entry
  ids : List JsId
  ran : List Task
  exn : Bool
deriving DecidableEq

/-- The `for` loop of `#runTasks`: skip non-task elements, and for every
task with `task.time < now` run the three phases, push a truthy `id`
onto `completedTasks`, and `delete` the element.  A raised phase
failure propagates immediately: the failing element is not deleted and
no later element is visited. -/
def loopRun (now : Int) : List Entry → LoopResult
  | [] => ⟨[], [], [], false⟩
  | Entry.junk :: rest =>
    let r := loopRun now rest
    ⟨Entry.junk :: r.entries, r.ids, r.ran, r.exn⟩
  | Entry.task t :: rest =>
    if t.time < now then
      if phasesOk t then
        let r := loopRun now rest
        ⟨Entry.junk :: r.entries,
          if t.id.truthy then t.id :: r.ids else r.ids,
          t :: r.ran, r.exn⟩
      else
        ⟨Entry.task t :: rest, [], [t], true⟩
    else
      let r := loopRun now rest
      ⟨Entry.task t :: r.entries, r.ids, r.ran, r.exn⟩

/-- Observable outcome of one `#runTasks` call: the new `#tasksList`,
the batched `TaskModel.update` store writes issued (each element is the
id list of one batched write), the tasks whose phases were invoked, and
whether an exception escaped `#runTasks`. -/
structure RunResult where
  tasksList : List Entry
  writes : List (List JsId)
  ran : List Task
  exn : Bool
deriving DecidableEq

/-- `#runTasks` (source lines 86-122): run the scan loop; if it raised,
the exception escapes before the filter line and the store write, so
the list keeps its holes and no write is issued.  Otherwise the list is
filtered down to task elements and, when `completedTasks` is non-empty,
exactly one batched completion write is issued with those ids. -/
def runTasks (now : Int) (l : List Entry) : RunResult :=
  let r := loopRun now l
  if r.exn then ⟨r.entries, [], r.ran, true⟩
  else
    ⟨r.entries.filter Entry.isTask,
      if r.ids.isEmpty then [] else [r.ids],
      r.ran, false⟩

/-- `static #MAX_TIMER_TIME = 864000000` (ten days in milliseconds). -/
def MAX_TIMER_TIME : Int := 864000000

/-- The delay computation at lines 73-75 of the source:
`nextTimerTime = Math.max(now, nextTimerTime) - now`, then clamp to
`#MAX_TIMER_TIME` when `nextTimerTime >= #MAX_TIMER_TIME`. -/
def timerDelay (now cand : Int) : Int :=
  if MAX_TIMER_TIME ≤ max now cand - now then MAX_TIMER_TIME
  else max now cand - now

/-- The `forEach` scan at lines 63-69 of the source.  `acc` is the
running `nextTimerTime`: while it is negative it is overwritten by the
next task's `time`, afterwards `Math.min` is taken.  Holes are skipped
by `forEach`. -/
def scanMin (acc : Int) : List Entry → Int
  | [] => acc
  | Entry.junk :: rest => scanMin acc rest
  | Entry.task t :: rest =>
    if acc < 0 then scanMin t.time rest
    else scanMin (min acc t.time) rest

/-- The mutable state of a `TasksQueue` instance: `#tasksList`,
the pending one-shot timer (`some w` means a timer is armed to fire at
absolute time `w`; `none` means idle), and `#currentTimerTimestamp`.
The source declares `#currentTimerTimestamp` (line 14) and reads it in
`#handleNewTask` (line 50) but never assigns it anywhere. -/
structure QState where
  tasksList : List Entry
  currentTimer : Option Int
  currentTimerTimestamp : Option Int
deriving DecidableEq

/-- `task.time < this.#currentTimerTimestamp` under JavaScript
comparison semantics: comparing with `undefined` yields `false`. -/
def jsLtUndef (a : Int) (b : Option Int) : Bool :=
  match b with
  | none => false
  | some v => decide (a < v)

/-- `!this.#currentTimerTimestamp`: `undefined` and `0` are falsy. -/
def jsFalsy (b : Option Int) : Bool :=
  match b with
  | none => true
  | some v => decide (v = 0)

/-- `#updateTimer` (source lines 58-80): cancel the pending timer, pick
the candidate time (`task?.time ?? -1`, scanning the working set while
the candidate is negative), return idle if the candidate stays
negative, and otherwise arm a one-shot timer after `timerDelay`. -/
def updateTimer (forced : Option Task) (now : Int) (s : QState) : QState :=
  let c0 : Int := match forced with | some t => t.time | none => -1
  let cand : Int := if c0 < 0 then scanMin c0 s.tasksList else c0
  if cand < 0 then ⟨s.tasksList, none, s.currentTimerTimestamp⟩
  else ⟨s.tasksList, some (now + timerDelay now cand),
    s.currentTimerTimestamp⟩

/-- `#handleNewTask` (source lines 47-52): push the task (after its
`initialize()` hook, which does not touch queue state), then call
`#updateTimer(task)` when
`task.time < this.#currentTimerTimestamp || !this.#currentTimerTimestamp`. -/
def handleNewTask (now : Int) (t : Task) (s : QState) : QState :=
  let pushed : QState :=
    ⟨s.tasksList ++ [Entry.task t], s.currentTimer, s.currentTimerTimestamp⟩
  if jsLtUndef t.time pushed.currentTimerTimestamp
      || jsFalsy pushed.currentTimerTimestamp then
    updateTimer (some t) now pushed
  else pushed

/-- The timer callback at lines 76-79 of the source: the one-shot timer
has fired (so no timer is pending), `#runTasks` runs, and only when it
returns without raising does `#updateTimer()` re-arm. -/
def fire (now : Int) (s : QState) : QState :=
  let r := runTasks now s.tasksList
  let after : QState := ⟨r.tasksList, none, s.currentTimerTimestamp⟩
  if r.exn then after else updateTimer none now after

/-- A raised failure of the loader. -/
structure UnknownVariantError where
  discriminator : String
deriving DecidableEq

/-- A persisted incomplete task record: identity, due timestamp and
variant discriminator. -/
structure TaskRecord where
  id : JsId
  time : Int
  discriminator : String
deriving DecidableEq

/-- Discriminators of the known task variants. -/
def knownVariants : List String := ["reminder"]

/-- Modelled from the spec: `TaskLoader.resolveTask` is not under
`src/`.  Per spec §4.2 it returns a constructed task of the variant
selected by the record's discriminator, with `id` and due time
populated, and fails with an `UnknownVariantError` when the
discriminator matches no known variant. -/
def resolveTask (r : TaskRecord) : Except UnknownVariantError Task :=
  if r.discriminator ∈ knownVariants then
    Except.ok ⟨r.time, r.id, true, true, true⟩
  else Except.error ⟨r.discriminator⟩

/-- `#loadTasksFromDatabase` (source lines 128-140): push the resolved
task of every record onto `#tasksList`.  The `forEach` body has no
`try`/`catch`, so the first loader failure propagates; records already
processed stay pushed. -/
def loadTasksFromDatabase (records : List TaskRecord) (acc : List Entry) :
    Except UnknownVariantError (List Entry) :=
  match records with
  | [] => Except.ok acc
  | r :: rest =>
    match resolveTask r with
    | Except.error e => Except.error e
    | Except.ok t => loadTasksFromDatabase rest (acc ++ [Entry.task t])

/-- `initialize` (source lines 31-35): load all incomplete records,
then arm the timer.  No `catch` anywhere, so a loader failure escapes
before `#updateTimer` runs. -/
def initializeQueue (now : Int) (records : List TaskRecord) :
    Except UnknownVariantError QState :=
  match loadTasksFromDatabase records [] with
  | Except.error e => Except.error e
  | Except.ok l => Except.ok (updateTimer none now ⟨l, none, none⟩)

/-- Specification-side view: the tasks of the working set that are due
at `now` under the strict comparison `time < now`. -/
def dueTasks (now : Int) (l : List Entry) : List Task :=
  (l.filterMap Entry.task?).filter fun t => decide (t.time < now)

/-- Specification-side view: the working set remaining after a wake-up,
namely the task elements whose time is not strictly before `now`. -/
def keptTasksList (now : Int) (l : List Entry) : List Entry :=
  ((l.filterMap Entry.task?).filter fun t => decide (now ≤ t.time)).map
    Entry.task

/-- The id of a task when that id is truthy. -/
def truthyId (t : Task) : Option JsId :=
  if t.id.truthy then some t.id else none

/-- Specification-side view: the truthy ids of the due tasks, in
working-set order. -/
def dueIds (now : Int) (l : List Entry) : List JsId :=
  (dueTasks now l).filterMap truthyId

/-- The array contents right after the scan loop of `#runTasks`, with
each due task replaced by the hole `delete` leaves. -/
def entriesAfterLoop (now : Int) (l : List Entry) : List Entry :=
  l.map fun e =>
    match e with
    | Entry.junk => Entry.junk
    | Entry.task t => if t.time < now then Entry.junk else Entry.task t

theorem entriesOk_cons_task {t : Task} {rest : List Entry}
    (h : entriesOk (Entry.task t :: rest) = true) :
    phasesOk t = true ∧ entriesOk rest = true := by
  simpa [entriesOk, Bool.and_eq_true] using h

theorem loopRun_ok (now : Int) (l : List Entry) (h : entriesOk l = true) :
    loopRun now l = ⟨entriesAfterLoop now l, dueIds now l, dueTasks now l, false⟩ := by
  induction l with
  | nil => rfl
  | cons e rest ih =>
    cases e with
    | junk =>
      have hrest : entriesOk rest = true := h
      simp [loopRun, ih hrest, entriesAfterLoop, dueIds, dueTasks,
        Entry.task?, List.filterMap_cons]
    | task t =>
      obtain ⟨hp, hrest⟩ := entriesOk_cons_task h
      by_cases hlt : t.time < now
      · by_cases hid : t.id.truthy = true
        · simp [loopRun, ih hrest, hlt, hp, hid, entriesAfterLoop, dueIds,
            dueTasks, truthyId, Entry.task?, List.filterMap_cons,
            List.filter_cons]
        · simp [loopRun, ih hrest, hlt, hp, hid, entriesAfterLoop, dueIds,
            dueTasks, truthyId, Entry.task?, List.filterMap_cons,
            List.filter_cons]
      · simp [loopRun, ih hrest, hlt, entriesAfterLoop, dueIds, dueTasks,
          Entry.task?, List.filterMap_cons, List.filter_cons]

theorem entriesAfterLoop_filter (now : Int) (l : List Entry) :
    (entriesAfterLoop now l).filter Entry.isTask = keptTasksList now l := by
  induction l with
  | nil => rfl
  | cons e rest ih =>
    cases e with
    | junk =>
      simpa [entriesAfterLoop, keptTasksList, Entry.isTask, Entry.task?,
        List.filterMap_cons, List.filter_cons] using ih
    | task t =>
      by_cases hlt : t.time < now
      · have hnle : ¬ now ≤ t.time := not_le.mpr hlt
        simpa [entriesAfterLoop, keptTasksList, Entry.isTask, Entry.task?,
          List.filterMap_cons, List.filter_cons, hlt, hnle] using ih
      · have hle : now ≤ t.time := not_lt.mp hlt
        simpa [entriesAfterLoop, keptTasksList, Entry.isTask, Entry.task?,
          List.filterMap_cons, List.filter_cons, hlt, hle] using ih

theorem runTasks_ok (now : Int) (l : List Entry) (h : entriesOk l = true) :
    runTasks now l =
      ⟨keptTasksList now l,
        if (dueIds now l).isEmpty then [] else [dueIds now l],
        dueTasks now l, false⟩ := by
  simp [runTasks, loopRun_ok now l h, entriesAfterLoop_filter]

theorem mem_of_task_mem_filterMap {l : List Entry} {t : Task}
    (h : t ∈ l.filterMap Entry.task?) : Entry.task t ∈ l := by
  rcases List.mem_filterMap.mp h with ⟨e, he, hfe⟩
  cases e with
  | task u =>
    have hu : u = t := by simpa [Entry.task?] using hfe
    exact hu ▸ he
  | junk => simp [Entry.task?] at hfe

theorem task_mem_filterMap {l : List Entry} {t : Task}
    (h : Entry.task t ∈ l) : t ∈ l.filterMap Entry.task? :=
  List.mem_filterMap.mpr ⟨Entry.task t, h, rfl⟩

theorem timesNonneg_spec {l : List Entry} (h : timesNonneg l = true) :
    ∀ t : Task, Entry.task t ∈ l → 0 ≤ t.time := by
  induction l with
  | nil => intro t ht; simp at ht
  | cons e rest ih =>
    intro t ht
    cases e with
    | junk =>
      rcases List.mem_cons.mp ht with h1 | h1
      · exact absurd h1 (by simp)
      · exact ih h t h1
    | task u =>
      have h2 : (0 ≤ u.time) ∧ timesNonneg rest = true := by
        simpa [timesNonneg, Bool.and_eq_true] using h
      rcases List.mem_cons.mp ht with h1 | h1
      · have hu : t = u := by simpa using h1
        exact hu ▸ h2.1
      · exact ih h2.2 t h1

theorem timesNeg_spec {l : List Entry} (h : timesNeg l = true) :
    ∀ t : Task, Entry.task t ∈ l → t.time < 0 := by
  induction l with
  | nil => intro t ht; simp at ht
  | cons e rest ih =>
    intro t ht
    cases e with
    | junk =>
      rcases List.mem_cons.mp ht with h1 | h1
      · exact absurd h1 (by simp)
      · exact ih h t h1
    | task u =>
      have h2 : (u.time < 0) ∧ timesNeg rest = true := by
        simpa [timesNeg, Bool.and_eq_true] using h
      rcases List.mem_cons.mp ht with h1 | h1
      · have hu : t = u := by simpa using h1
        exact hu ▸ h2.1
      · exact ih h2.2 t h1

theorem scanMin_nonneg {l : List Entry} {a : Int} (ha : 0 ≤ a)
    (h : ∀ t : Task, Entry.task t ∈ l → 0 ≤ t.time) : 0 ≤ scanMin a l := by
  induction l generalizing a with
  | nil => simpa [scanMin]
  | cons e rest ih =>
    cases e with
    | junk =>
      simp only [scanMin]
      exact ih ha (fun t ht => h t (List.mem_cons_of_mem _ ht))
    | task t =>
      simp only [scanMin, if_neg (not_lt.mpr ha)]
      exact ih (le_min ha (h t (List.mem_cons_self _ _)))
        (fun u hu => h u (List.mem_cons_of_mem _ hu))

theorem scanMin_nonneg_of_task {l : List Entry} (a : Int)
    (hex : hasTask l = true)
    (h : ∀ t : Task, Entry.task t ∈ l → 0 ≤ t.time) : 0 ≤ scanMin a l := by
  induction l generalizing a with
  | nil => simp [hasTask] at hex
  | cons e rest ih =>
    cases e with
    | junk =>
      simp only [scanMin]
      have hex2 : hasTask rest = true := by
        simpa [hasTask, Entry.isTask] using hex
      exact ih a hex2 (fun t ht => h t (List.mem_cons_of_mem _ ht))
    | task t =>
      have ht : 0 ≤ t.time := h t (List.mem_cons_self _ _)
      have hrest : ∀ u : Task, Entry.task u ∈ rest → 0 ≤ u.time :=
        fun u hu => h u (List.mem_cons_of_mem _ hu)
      simp only [scanMin]
      by_cases hac : a < 0
      · rw [if_pos hac]; exact scanMin_nonneg ht hrest
      · rw [if_neg hac]; exact scanMin_nonneg (le_min (not_lt.mp hac) ht) hrest

theorem scanMin_neg {l : List Entry} {a : Int} (ha : a < 0)
    (h : ∀ t : Task, Entry.task t ∈ l → t.time < 0) : scanMin a l < 0 := by
  induction l generalizing a with
  | nil => simpa [scanMin]
  | cons e rest ih =>
    cases e with
    | junk =>
      simp only [scanMin]
      exact ih ha (fun t ht => h t (List.mem_cons_of_mem _ ht))
    | task t =>
      simp only [scanMin, if_pos ha]
      exact ih (h t (List.mem_cons_self _ _))
        (fun u hu => h u (List.mem_cons_of_mem _ hu))

/-- C7: for every rearm with candidate target time `cand`, the armed
one-shot delay equals `max 0 (cand - now)` when that value is below the
maximum horizon, and equals the horizon constant of `864000000`
milliseconds (ten days) otherwise; the delay is never negative and
never exceeds the horizon. -/
theorem c7_delay_clamped (now cand : Int) :
    0 ≤ timerDelay now cand ∧ timerDelay now cand ≤ MAX_TIMER_TIME ∧
      timerDelay now cand =
        if max 0 (cand - now) < MAX_TIMER_TIME then max 0 (cand - now)
        else MAX_TIMER_TIME := by
  have hmax : max now cand - now = max 0 (cand - now) := by
    rcases le_total now cand with h | h
    · rw [max_eq_right h, max_eq_right (by omega : (0:Int) ≤ cand - now)]
    · rw [max_eq_left h, max_eq_left (by omega : cand - now ≤ (0:Int))]
      omega
  have hM : (0:Int) ≤ MAX_TIMER_TIME := by norm_num [MAX_TIMER_TIME]
  unfold timerDelay
  rw [hmax]
  by_cases hc : MAX_TIMER_TIME ≤ max 0 (cand - now)
  · rw [if_pos hc, if_neg (not_lt.mpr hc)]
    exact ⟨hM, le_refl _, rfl⟩
  · rw [if_neg hc, if_pos (not_le.mp hc)]
    exact ⟨le_max_left _ _, le_of_lt (not_le.mp hc), rfl⟩

/-- C5: at a wake-up, exactly the tasks of the working set whose time
is strictly less than the captured `now` are run, the remaining working
set keeps exactly the tasks whose time is not strictly less, and a task
whose time equals `now` is not run and stays in the working set. -/
theorem c5_due_strict_lt (now : Int) (l : List Entry)
    (h : entriesOk l = true) :
    (runTasks now l).ran = dueTasks now l ∧
      (runTasks now l).tasksList = keptTasksList now l ∧
      ∀ t : Task, Entry.task t ∈ l → t.time = now →
        Entry.task t ∈ (runTasks now l).tasksList ∧
          t ∉ (runTasks now l).ran := by
  have hr := runTasks_ok now l h
  refine ⟨by rw [hr], by rw [hr], ?_⟩
  intro t ht heq
  rw [hr]
  constructor
  · have h1 : t ∈ l.filterMap Entry.task? := task_mem_filterMap ht
    have h2 : t ∈ (l.filterMap Entry.task?).filter
        fun u => decide (now ≤ u.time) :=
      List.mem_filter.mpr ⟨h1, by simp [heq]⟩
    show Entry.task t ∈ ((l.filterMap Entry.task?).filter
        fun u => decide (now ≤ u.time)).map Entry.task
    exact List.mem_map_of_mem Entry.task h2
  · intro hmem
    have hmem2 : t ∈ (l.filterMap Entry.task?).filter
        (fun u => decide (u.time < now)) := hmem
    have h4 : t.time < now := by simpa using (List.mem_filter.mp hmem2).2
    omega

def cW5a : Task := ⟨5, JsId.num 1, true, true, true⟩
def cW5b : Task := ⟨10, JsId.num 2, true, true, true⟩
def cW5l : List Entry := [Entry.task cW5a, Entry.task cW5b]

/-- Witness for C5 at `now = 10` on a working set holding a task due at
`5` and a boundary task due exactly at `10`. -/
theorem c5_witness :
    entriesOk cW5l = true ∧
      ((runTasks 10 cW5l).ran = dueTasks 10 cW5l ∧
        (runTasks 10 cW5l).tasksList = keptTasksList 10 cW5l ∧
        ∀ t : Task, Entry.task t ∈ cW5l → t.time = 10 →
          Entry.task t ∈ (runTasks 10 cW5l).tasksList ∧
            t ∉ (runTasks 10 cW5l).ran) :=
  ⟨by decide, c5_due_strict_lt 10 cW5l (by decide)⟩

/-- C6: at a wake-up, the batched completion write is issued at most
once; it is issued exactly when some task run in that wake-up has a
truthy (persisted) id, and the content of the single write is exactly
the truthy ids of the tasks run in that wake-up, in order. -/
theorem c6_single_batched_write (now : Int) (l : List Entry)
    (h : entriesOk l = true) :
    (runTasks now l).writes.length ≤ 1 ∧
      ((runTasks now l).writes ≠ [] ↔
        ∃ t ∈ (runTasks now l).ran, t.id.truthy = true) ∧
      (runTasks now l).writes =
        if ((runTasks now l).ran.filterMap truthyId).isEmpty then []
        else [(runTasks now l).ran.filterMap truthyId] := by
  have hr := runTasks_ok now l h
  rw [hr]
  refine ⟨?_, ?_, ?_⟩
  · by_cases he : (dueIds now l).isEmpty <;> simp [he]
  · by_cases he : (dueIds now l).isEmpty = true
    · have h0 : dueIds now l = [] := by simpa [List.isEmpty_iff] using he
      have hall : ∀ u ∈ dueTasks now l, truthyId u = none := by
        simpa [dueIds, List.filterMap_eq_nil_iff] using h0
      rw [if_pos he]
      constructor
      · intro hc; exact absurd rfl hc
      · rintro ⟨t, htmem, htr⟩
        have h2 := hall t htmem
        simp [truthyId, htr] at h2
    · rw [if_neg he]
      have hne : dueIds now l ≠ [] := by simpa [List.isEmpty_iff] using he
      rcases List.exists_mem_of_ne_nil _ hne with ⟨i, hi⟩
      have hi2 : i ∈ (dueTasks now l).filterMap truthyId := hi
      rcases List.mem_filterMap.mp hi2 with ⟨t, htmem, hti⟩
      have htr : t.id.truthy = true := by
        by_contra hf
        rw [Bool.not_eq_true] at hf
        simp [truthyId, hf] at hti
      constructor
      · intro _; exact ⟨t, htmem, htr⟩
      · intro _; simp
  · rfl

def cW6a : Task := ⟨3, JsId.num 7, true, true, true⟩
def cW6b : Task := ⟨4, JsId.absent, true, true, true⟩
def cW6l : List Entry := [Entry.task cW6a, Entry.junk, Entry.task cW6b]

/-- Witness for C6 at `now = 10`: two due tasks, one with a persisted
id and one transient, plus a non-task element. -/
theorem c6_witness :
    entriesOk cW6l = true ∧
      ((runTasks 10 cW6l).writes.length ≤ 1 ∧
        ((runTasks 10 cW6l).writes ≠ [] ↔
          ∃ t ∈ (runTasks 10 cW6l).ran, t.id.truthy = true) ∧
        (runTasks 10 cW6l).writes =
          if ((runTasks 10 cW6l).ran.filterMap truthyId).isEmpty then []
          else [(runTasks 10 cW6l).ran.filterMap truthyId]) :=
  ⟨by decide, c6_single_batched_write 10 cW6l (by decide)⟩

/-- C9: a task run in a wake-up is removed from the working set purely
because it was due, and its id enters the batched write only when that
id is truthy: a run task whose id is falsy (absent, null, zero, or the
empty string) is removed but its id appears in no write. -/
theorem c9_falsy_id_excluded (now : Int) (l : List Entry)
    (h : entriesOk l = true) :
    (∀ t : Task, Entry.task t ∈ l → t.time < now →
        Entry.task t ∉ (runTasks now l).tasksList) ∧
      (∀ t ∈ (runTasks now l).ran, t.id.truthy = false →
        ∀ w ∈ (runTasks now l).writes, t.id ∉ w) := by
  have hr := runTasks_ok now l h
  rw [hr]
  constructor
  · intro t ht hlt hmem
    have hmem2 : Entry.task t ∈ ((l.filterMap Entry.task?).filter
        (fun u => decide (now ≤ u.time))).map Entry.task := hmem
    rcases List.mem_map.mp hmem2 with ⟨u, hu, huq⟩
    have hut : u = t := by simpa using huq
    have h2 : now ≤ u.time := by simpa using (List.mem_filter.mp hu).2
    rw [hut] at h2
    omega
  · intro t htmem hfalsy w hw hmemw
    by_cases he : (dueIds now l).isEmpty = true
    · rw [if_pos he] at hw
      simp at hw
    · rw [if_neg he] at hw
      have hw2 : w = dueIds now l := by simpa using hw
      subst hw2
      have hmw2 : t.id ∈ (dueTasks now l).filterMap truthyId := hmemw
      rcases List.mem_filterMap.mp hmw2 with ⟨u, humem, hui⟩
      by_cases hu : u.id.truthy = true
      · have hid : u.id = t.id := by simpa [truthyId, hu] using hui
        rw [← hid, hu] at hfalsy
        exact Bool.noConfusion hfalsy
      · rw [Bool.not_eq_true] at hu
        simp [truthyId, hu] at hui

def cW9a : Task := ⟨3, JsId.num 0, true, true, true⟩
def cW9b : Task := ⟨4, JsId.num 7, true, true, true⟩
def cW9l : List Entry := [Entry.task cW9a, Entry.task cW9b]

/-- Witness for C9 at `now = 10`: a due task with the falsy persisted
id `0` next to a due task with a truthy id. -/
theorem c9_witness :
    entriesOk cW9l = true ∧
      ((∀ t : Task, Entry.task t ∈ cW9l → t.time < 10 →
          Entry.task t ∉ (runTasks 10 cW9l).tasksList) ∧
        (∀ t ∈ (runTasks 10 cW9l).ran, t.id.truthy = false →
          ∀ w ∈ (runTasks 10 cW9l).writes, t.id ∉ w)) :=
  ⟨by decide, c9_falsy_id_excluded 10 cW9l (by decide)⟩

theorem updateTimer_tasksList (forced : Option Task) (now : Int)
    (s : QState) : (updateTimer forced now s).tasksList = s.tasksList := by
  simp only [updateTimer]
  split <;> split <;> rfl

theorem updateTimer_none_armed (l : List Entry) (now : Int)
    (tm ts : Option Int) (h : 0 ≤ scanMin (-1) l) :
    (updateTimer none now ⟨l, tm, ts⟩).currentTimer =
      some (now + timerDelay now (scanMin (-1) l)) := by
  simp only [updateTimer]
  rw [if_pos (by norm_num : (-1:Int) < 0), if_neg (not_lt.mpr h)]

theorem updateTimer_none_idle (l : List Entry) (now : Int)
    (tm ts : Option Int) (h : scanMin (-1) l < 0) :
    (updateTimer none now ⟨l, tm, ts⟩).currentTimer = none := by
  simp only [updateTimer]
  rw [if_pos (by norm_num : (-1:Int) < 0), if_pos h]

def cT100 : Task := ⟨100, JsId.num 1, true, true, true⟩
def cT200 : Task := ⟨200, JsId.num 2, true, true, true⟩
def emptyQ : QState := ⟨[], none, none⟩

/-- C1, evaluated at the failing input: starting idle at `now = 0`,
enqueueing a task due at `100` and then a task due at `200` leaves the
armed timer targeting `200` — the time of the most recently enqueued
task — although the minimum due time over the non-empty working set is
`100`.  The invariant fails because `#currentTimerTimestamp` is never
assigned, so the guard in `#handleNewTask` is always true and
`#updateTimer` is always forced onto the newly added task. -/
theorem c1_enqueue_timer_target_eval :
    (handleNewTask 0 cT200 (handleNewTask 0 cT100 emptyQ)).tasksList =
        [Entry.task cT100, Entry.task cT200] ∧
      (handleNewTask 0 cT200 (handleNewTask 0 cT100 emptyQ)).currentTimer =
        some 200 ∧
      cT100.time < cT200.time := by decide

/-- C2, evaluated at the failing input: after enqueueing a task due at
`100` (timer armed for `100`), enqueueing a task due at `200` — later
than the armed target — still re-arms the timer, moving it to `200`
instead of leaving it unchanged, because `#currentTimerTimestamp` is
never assigned and the re-arm guard is therefore always true. -/
theorem c2_enqueue_always_rearms_eval :
    (handleNewTask 0 cT100 emptyQ).currentTimer = some 100 ∧
      100 < cT200.time ∧
      (handleNewTask 0 cT200 (handleNewTask 0 cT100 emptyQ)).currentTimer =
        some 200 := by decide

def cFailA : Task := ⟨0, JsId.num 1, true, false, true⟩
def cOkB : Task := ⟨0, JsId.num 2, true, true, true⟩
def c3l : List Entry := [Entry.task cFailA, Entry.task cOkB]

/-- Counterexample to C3: at `now = 10` with two due tasks, the first
one failing its `run` phase, the exception escapes `#runTasks`: the
second due task is never run (`ran = [cFailA]`), the failing task is
not removed from the working set, and no completion write carries its
id — contradicting the claim that other due tasks still run, that the
failing task is removed, and that its id is still written. -/
theorem c3_counterexample :
    (runTasks 10 c3l).exn = true ∧
      (runTasks 10 c3l).tasksList = c3l ∧
      (runTasks 10 c3l).writes = [] ∧
      (runTasks 10 c3l).ran = [cFailA] := by decide

theorem loopRun_append_fail (now : Int) (l1 l2 : List Entry) (f : Task)
    (h1 : entriesOk l1 = true) (hdue : f.time < now)
    (hfail : phasesOk f = false) :
    loopRun now (l1 ++ Entry.task f :: l2) =
      ⟨entriesAfterLoop now l1 ++ Entry.task f :: l2,
        dueIds now l1, dueTasks now l1 ++ [f], true⟩ := by
  induction l1 with
  | nil =>
    simp [loopRun, hdue, hfail, entriesAfterLoop, dueIds, dueTasks]
  | cons e rest ih =>
    cases e with
    | junk =>
      have hrest : entriesOk rest = true := h1
      simp [loopRun, ih hrest, entriesAfterLoop, dueIds, dueTasks,
        Entry.task?, List.filterMap_cons]
    | task t =>
      obtain ⟨hp, hrest⟩ := entriesOk_cons_task h1
      by_cases hlt : t.time < now
      · by_cases hid : t.id.truthy = true
        · simp [loopRun, ih hrest, hlt, hp, hid, entriesAfterLoop, dueIds,
            dueTasks, truthyId, Entry.task?, List.filterMap_cons,
            List.filter_cons]
        · simp [loopRun, ih hrest, hlt, hp, hid, entriesAfterLoop, dueIds,
            dueTasks, truthyId, Entry.task?, List.filterMap_cons,
            List.filter_cons]
      · simp [loopRun, ih hrest, hlt, entriesAfterLoop, dueIds, dueTasks,
          Entry.task?, List.filterMap_cons, List.filter_cons]

/-- C3, amended: a failure in any lifecycle phase of one due task aborts
the whole wake-up instead of being isolated.  With well-behaved tasks
`l1` before the failing due task `f`, the exception escapes
`#runTasks`; the due tasks of `l1` did run (and were removed as
holes), `f` ran but stays in the working set, every element after `f`
is untouched and not run, and no batched completion write is issued. -/
theorem c3_amended_failure_aborts (now : Int) (l1 l2 : List Entry)
    (f : Task) (h1 : entriesOk l1 = true) (hdue : f.time < now)
    (hfail : phasesOk f = false) :
    (runTasks now (l1 ++ Entry.task f :: l2)).exn = true ∧
      (runTasks now (l1 ++ Entry.task f :: l2)).tasksList =
        entriesAfterLoop now l1 ++ Entry.task f :: l2 ∧
      (runTasks now (l1 ++ Entry.task f :: l2)).writes = [] ∧
      (runTasks now (l1 ++ Entry.task f :: l2)).ran =
        dueTasks now l1 ++ [f] := by
  simp [runTasks, loopRun_append_fail now l1 l2 f h1 hdue hfail]

def cW3c : Task := ⟨1, JsId.num 3, true, true, true⟩
def cW3f : Task := ⟨2, JsId.num 4, false, true, true⟩
def cW3b : Task := ⟨3, JsId.num 5, true, true, true⟩

/-- Witness for the amended C3: a healthy due task, then a due task
whose `beforeRun` fails, then another due task. -/
theorem c3_amended_witness :
    entriesOk [Entry.task cW3c] = true ∧ cW3f.time < 10 ∧
      phasesOk cW3f = false ∧
      ((runTasks 10 ([Entry.task cW3c] ++ Entry.task cW3f ::
            [Entry.task cW3b])).exn = true ∧
        (runTasks 10 ([Entry.task cW3c] ++ Entry.task cW3f ::
            [Entry.task cW3b])).tasksList =
          entriesAfterLoop 10 [Entry.task cW3c] ++ Entry.task cW3f ::
            [Entry.task cW3b] ∧
        (runTasks 10 ([Entry.task cW3c] ++ Entry.task cW3f ::
            [Entry.task cW3b])).writes = [] ∧
        (runTasks 10 ([Entry.task cW3c] ++ Entry.task cW3f ::
            [Entry.task cW3b])).ran =
          dueTasks 10 [Entry.task cW3c] ++ [cW3f]) :=
  ⟨by decide, by decide, by decide,
    c3_amended_failure_aborts 10 [Entry.task cW3c] [Entry.task cW3b] cW3f
      (by decide) (by decide) (by decide)⟩

def cRec1 : TaskRecord := ⟨JsId.num 1, 5, "reminder"⟩
def cRecBad : TaskRecord := ⟨JsId.num 2, 6, "unknown_type"⟩
def cRec3 : TaskRecord := ⟨JsId.num 3, 7, "reminder"⟩

/-- Counterexample to C4: with a record carrying the unknown
discriminator `"unknown_type"` between two valid records, the startup
load raises out of `initialize()` — no state is produced at all, so
the valid records do not all enter the working set and an exception
does escape. -/
theorem c4_counterexample :
    initializeQueue 0 [cRec1, cRecBad, cRec3] =
      Except.error ⟨"unknown_type"⟩ := by rfl

/-- C4, amended: with the loader failing on an unknown discriminator as
the spec describes, `initialize()` propagates the `UnknownVariantError`
raised on the first invalid record: the load is aborted there and the
error escapes, so the timer is never armed. -/
theorem c4_amended_load_error (now : Int) (r1 r2 : List TaskRecord)
    (bad : TaskRecord)
    (h1 : ∀ r ∈ r1, r.discriminator ∈ knownVariants)
    (hbad : bad.discriminator ∉ knownVariants) :
    initializeQueue now (r1 ++ bad :: r2) =
      Except.error ⟨bad.discriminator⟩ := by
  have key : ∀ acc, loadTasksFromDatabase (r1 ++ bad :: r2) acc =
      Except.error ⟨bad.discriminator⟩ := by
    induction r1 with
    | nil =>
      intro acc
      simp only [List.nil_append, loadTasksFromDatabase, resolveTask,
        if_neg hbad]
    | cons r rest ih =>
      intro acc
      have hr : r.discriminator ∈ knownVariants :=
        h1 r (List.mem_cons_self _ _)
      simp only [List.cons_append, loadTasksFromDatabase, resolveTask,
        if_pos hr]
      exact ih (fun u hu => h1 u (List.mem_cons_of_mem _ hu)) _
  simp [initializeQueue, key []]

/-- Witness for the amended C4: one valid record, one record with the
unknown discriminator, one more valid record. -/
theorem c4_amended_witness :
    (∀ r ∈ [cRec1], r.discriminator ∈ knownVariants) ∧
      cRecBad.discriminator ∉ knownVariants ∧
      initializeQueue 0 ([cRec1] ++ cRecBad :: [cRec3]) =
        Except.error ⟨cRecBad.discriminator⟩ :=
  ⟨by decide, by decide,
    c4_amended_load_error 0 [cRec1] [cRec3] cRecBad (by decide) (by decide)⟩

/-- C8: whenever a timer fire completes its run phase (no lifecycle
failure) and the surviving working set is non-empty with the usual
non-negative timestamps, a timer is armed again afterwards — the
callback unconditionally calls `#updateTimer()` after `#runTasks`, so
even a clamp-triggered early wake with zero due tasks re-arms. -/
theorem c8_fire_rearms (now : Int) (s : QState)
    (hok : entriesOk s.tasksList = true)
    (hpos : timesNonneg s.tasksList = true)
    (hne : (fire now s).tasksList ≠ []) :
    ((fire now s).currentTimer).isSome = true := by
  have hr := runTasks_ok now s.tasksList hok
  simp only [fire, hr] at hne ⊢
  rw [if_neg Bool.false_ne_true] at hne ⊢
  rw [updateTimer_tasksList] at hne
  have hkept : keptTasksList now s.tasksList ≠ [] := hne
  have hksub : ∀ t : Task,
      Entry.task t ∈ keptTasksList now s.tasksList → 0 ≤ t.time := by
    intro t htk
    have htk2 : Entry.task t ∈ ((s.tasksList.filterMap Entry.task?).filter
        (fun u => decide (now ≤ u.time))).map Entry.task := htk
    rcases List.mem_map.mp htk2 with ⟨u, hu, huq⟩
    have hut : u = t := by simpa using huq
    have hu2 : u ∈ s.tasksList.filterMap Entry.task? :=
      (List.mem_filter.mp hu).1
    have h3 := timesNonneg_spec hpos u (mem_of_task_mem_filterMap hu2)
    rw [hut] at h3
    exact h3
  have hhas : hasTask (keptTasksList now s.tasksList) = true := by
    rcases List.exists_mem_of_ne_nil _ hkept with ⟨e, he⟩
    have he2 : e ∈ ((s.tasksList.filterMap Entry.task?).filter
        (fun u => decide (now ≤ u.time))).map Entry.task := he
    rcases List.mem_map.mp he2 with ⟨t, htmem, hte⟩
    rw [← hte] at he
    simp only [hasTask, List.any_eq_true]
    exact ⟨Entry.task t, he, rfl⟩
  have hcand : 0 ≤ scanMin (-1) (keptTasksList now s.tasksList) :=
    scanMin_nonneg_of_task (-1) hhas hksub
  rw [updateTimer_none_armed _ now none s.currentTimerTimestamp hcand]
  rfl

def cFar : Task := ⟨864000100, JsId.num 9, true, true, true⟩
def c8s : QState := ⟨[Entry.task cFar], some 5, none⟩

/-- Witness for C8 at `now = 0`: a clamp-triggered wake that finds zero
due tasks (the only task is due ten days plus later) still re-arms. -/
theorem c8_witness :
    entriesOk c8s.tasksList = true ∧ timesNonneg c8s.tasksList = true ∧
      (fire 0 c8s).tasksList ≠ [] ∧
      (runTasks 0 c8s.tasksList).ran = [] ∧
      ((fire 0 c8s).currentTimer).isSome = true :=
  ⟨by decide, by decide, by decide, by decide,
    c8_fire_rearms 0 c8s (by decide) (by decide) (by decide)⟩

def cN5 : Task := ⟨5, JsId.num 1, true, true, true⟩
def cNm3 : Task := ⟨-3, JsId.num 2, true, true, true⟩
def cN7 : Task := ⟨7, JsId.num 3, true, true, true⟩
def c10s : QState :=
  ⟨[Entry.task cN5, Entry.task cNm3, Entry.task cN7], some 42, none⟩

/-- Counterexample to C10: with working-set times `[5, -3, 7]` the
minimum time `-3` is negative, yet the forced-free rearm at `now = 10`
does arm a timer (for `now` itself): the `forEach` scan restarts
whenever the accumulator is negative, so a negative time followed by a
non-negative one does not leave the scheduler idle. -/
theorem c10_counterexample :
    (updateTimer none 10 c10s).currentTimer = some 10 ∧
      c10s.tasksList = [Entry.task cN5, Entry.task cNm3, Entry.task cN7] ∧
      cNm3.time < 0 ∧ cNm3.time ≤ cN5.time ∧ cNm3.time ≤ cN7.time := by
  decide

/-- C10, amended: for a forced-free rearm, when every task time in the
working set is negative no timer is armed at all (idle despite pending
tasks), and when the working set holds a task and every task time is
non-negative a timer is guaranteed to be armed; a merely negative
minimum does not by itself prevent arming. -/
theorem c10_amended_rearm (now : Int) (s : QState) :
    (timesNeg s.tasksList = true →
        (updateTimer none now s).currentTimer = none) ∧
      (hasTask s.tasksList = true → timesNonneg s.tasksList = true →
        ((updateTimer none now s).currentTimer).isSome = true) := by
  obtain ⟨l, tm, ts⟩ := s
  constructor
  · intro hneg
    exact updateTimer_none_idle l now tm ts
      (scanMin_neg (by norm_num) (timesNeg_spec hneg))
  · intro hex hnn
    rw [updateTimer_none_armed l now tm ts
      (scanMin_nonneg_of_task (-1) hex (timesNonneg_spec hnn))]
    rfl

def c10neg : QState := ⟨[Entry.task cNm3], some 42, none⟩
def c10pos : QState := ⟨[Entry.task cN5], none, none⟩

/-- Witness for the amended C10: an all-negative working set goes idle,
an all-non-negative non-empty one gets a timer armed. -/
theorem c10_amended_witness :
    timesNeg c10neg.tasksList = true ∧
      (updateTimer none 10 c10neg).currentTimer = none ∧
      hasTask c10pos.tasksList = true ∧
      timesNonneg c10pos.tasksList = true ∧
      ((updateTimer none 10 c10pos).currentTimer).isSome = true :=
  ⟨by decide, (c10_amended_rearm 10 c10neg).1 (by decide), by decide,
    by decide, (c10_amended_rearm 10 c10pos).2 (by decide) (by decide)⟩

end TasksQueue
